import Mathlib

/- Formal model of the handwriting-to-LaTeX data pipeline
   (tests/scripts/01_collect_data.py, 02_preprocess.py, 04_evaluate.py,
   06_prepare_pix2tex_data.py, 07_create_pix2tex_dataset.py).
   Python strings are modelled as lists of characters; every definition
   mirrors a specific function or code path of the scripts, documented at
   the definition. -/

/-- Python whitespace characters stripped by str.strip with no argument
(ASCII range, which is all the pipeline ever produces). -/
def isPySpace (c : Char) : Bool :=
  c = ' ' || c = '\t' || c = '\n' || c = '\r' || c = '\x0b' || c = '\x0c'

/-- Python str.strip(chars): drop the longest run of characters satisfying
p from both ends of the string. -/
def stripEnds (p : Char → Bool) (s : List Char) : List Char :=
  ((s.dropWhile p).reverse.dropWhile p).reverse

/-- Python str.strip() with no argument. -/
def pyStrip (s : List Char) : List Char := stripEnds isPySpace s

/-- The two brace characters, the argument of the strip call in
06_prepare_pix2tex_data.py line 45. -/
def isBraceChar (c : Char) : Bool := c = '{' || c = '}'

/-- clean_label from 06_prepare_pix2tex_data.py line 45:
label.strip of the brace characters, i.e. all leading and trailing
brace characters are removed, whatever their nesting or balance. -/
def clean_label (s : List Char) : List Char := stripEnds isBraceChar s

lemma head?_dropWhile_all (p : Char → Bool) (l : List Char) :
    ((l.dropWhile p).head?.all fun c => !p c) = true := by
  induction l with
  | nil => rfl
  | cons a t ih =>
      by_cases h : p a
      · simpa [List.dropWhile_cons, h] using ih
      · simp [List.dropWhile_cons, h]

lemma getLast?_append_right (t w : List Char) (hw : w ≠ []) :
    (t ++ w).getLast? = w.getLast? := by
  induction t with
  | nil => rfl
  | cons a s ih =>
      cases h : s ++ w with
      | nil => exact absurd (List.append_eq_nil.mp h).2 hw
      | cons b l' =>
          rw [h] at ih
          simp only [List.cons_append, h, List.getLast?_cons_cons]
          exact ih

lemma getLast?_dropWhile_of_getLast (p : Char → Bool) (l : List Char)
    (hx : (l.getLast?.all fun c => !p c) = true) :
    ((l.dropWhile p).getLast?.all fun c => !p c) = true := by
  by_cases hw : l.dropWhile p = []
  · simp [hw]
  · have hsplit : l.takeWhile p ++ l.dropWhile p = l :=
      List.takeWhile_append_dropWhile p l
    have h1 : (l.dropWhile p).getLast? = l.getLast? := by
      conv_rhs => rw [← hsplit]
      exact (getLast?_append_right _ _ hw).symm
    rw [h1]
    exact hx

lemma stripEnds_substring (p : Char → Bool) (l : List Char) :
    ∃ pre post, l = pre ++ stripEnds p l ++ post := by
  refine ⟨l.takeWhile p, ((l.dropWhile p).reverse.takeWhile p).reverse, ?_⟩
  have h1 : l.takeWhile p ++ l.dropWhile p = l := List.takeWhile_append_dropWhile p l
  have h2 : l.dropWhile p
      = stripEnds p l ++ ((l.dropWhile p).reverse.takeWhile p).reverse := by
    have h3 : (l.dropWhile p).reverse.takeWhile p ++ (l.dropWhile p).reverse.dropWhile p
        = (l.dropWhile p).reverse := List.takeWhile_append_dropWhile p _
    have h4 := congrArg List.reverse h3
    rw [List.reverse_append, List.reverse_reverse] at h4
    exact h4.symm
  calc l = l.takeWhile p ++ l.dropWhile p := h1.symm
    _ = l.takeWhile p ++ (stripEnds p l ++ ((l.dropWhile p).reverse.takeWhile p).reverse) := by
        rw [← h2]
    _ = l.takeWhile p ++ stripEnds p l ++ ((l.dropWhile p).reverse.takeWhile p).reverse := by
        rw [List.append_assoc]

lemma stripEnds_getLast (p : Char → Bool) (l : List Char) :
    ((stripEnds p l).getLast?.all fun c => !p c) = true := by
  unfold stripEnds
  rw [List.getLast?_reverse]
  exact head?_dropWhile_all p _

lemma stripEnds_head (p : Char → Bool) (l : List Char) :
    ((stripEnds p l).head?.all fun c => !p c) = true := by
  unfold stripEnds
  rw [List.head?_reverse]
  refine getLast?_dropWhile_of_getLast p _ ?_
  rw [List.getLast?_reverse]
  exact head?_dropWhile_all p l

/-- Claim C1 counterexample: on the label from the claim's own example the
strip-based cleaning removes both brace layers, so the result is not the
single-layer string the claim predicts. -/
theorem c1_counterexample :
    clean_label "{{x^2}}".toList = "x^2".toList ∧
    "x^2".toList ≠ "{x^2}".toList := by
  constructor
  · decide
  · decide

/-- Claim C1 (amended): clean_label removes all leading and trailing brace
characters of a label, regardless of balance: both the claim's balanced
and unbalanced examples lose every outer brace; in general the result is a
contiguous substring of the label that neither starts nor ends with a
brace character. -/
theorem c1_amended :
    clean_label "{{x^2}}".toList = "x^2".toList ∧
    clean_label "{x^2}".toList = "x^2".toList ∧
    clean_label "\x7b\x7bx^2\x7d".toList = "x^2".toList ∧
    (∀ l : List Char, ∃ pre post, l = pre ++ clean_label l ++ post) ∧
    (∀ l : List Char, ((clean_label l).head?.all fun c => !isBraceChar c) = true) ∧
    (∀ l : List Char, ((clean_label l).getLast?.all fun c => !isBraceChar c) = true) := by
  refine ⟨by decide, by decide, by decide, ?_, ?_, ?_⟩
  · intro l
    exact stripEnds_substring isBraceChar l
  · intro l
    exact stripEnds_head isBraceChar l
  · intro l
    exact stripEnds_getLast isBraceChar l

/-- Split a Python string at the first tab character, modelling
line.split of a single tab with maxsplit one
(06_prepare_pix2tex_data.py line 40, 04_evaluate.py line 49). -/
def splitFirstTab (l : List Char) : List Char × List Char :=
  (l.takeWhile (fun c => c != '\t'), (l.dropWhile (fun c => c != '\t')).drop 1)

/-- One line of the labels.txt readers, shared between the FormatAdapter
(06_prepare_pix2tex_data.py lines 37-40) and the EvaluationHarness
(04_evaluate.py lines 46-50): strip the line, skip it when the stripped
line holds no tab, else split at the first tab into image name and label. -/
def parseLabelLine (line : List Char) : Option (List Char × List Char) :=
  let l := pyStrip line
  if l.contains '\t' then some (splitFirstTab l) else none

/-- Read a whole labels file: parse every line, keeping only the
tab-bearing ones. -/
def readLabelPairs (lines : List (List Char)) : List (List Char × List Char) :=
  lines.filterMap parseLabelLine

lemma takeWhile_append_of_all (p : Char → Bool) (l l' : List Char)
    (h : l.all p = true) : (l ++ l').takeWhile p = l ++ l'.takeWhile p := by
  induction l with
  | nil => rfl
  | cons a t ih =>
      rw [List.all_cons, Bool.and_eq_true] at h
      simp only [List.cons_append, List.takeWhile_cons, h.1, if_true]
      rw [ih h.2]

lemma dropWhile_append_of_all (p : Char → Bool) (l l' : List Char)
    (h : l.all p = true) : (l ++ l').dropWhile p = l'.dropWhile p := by
  induction l with
  | nil => rfl
  | cons a t ih =>
      rw [List.all_cons, Bool.and_eq_true] at h
      simp only [List.cons_append, List.dropWhile_cons, h.1, if_true]
      exact ih h.2

lemma pyStrip_eq_self (l : List Char)
    (h1 : (l.head?.all fun c => !isPySpace c) = true)
    (h2 : (l.getLast?.all fun c => !isPySpace c) = true) :
    pyStrip l = l := by
  unfold pyStrip stripEnds
  cases l with
  | nil => rfl
  | cons a t =>
      have ha : isPySpace a = false := by simpa using h1
      rw [List.dropWhile_cons, ha]
      simp only [Bool.false_eq_true, if_false]
      cases hr : (a :: t).reverse with
      | nil => exact absurd hr (by simp)
      | cons b u =>
          have hb : isPySpace b = false := by
            have hbl : (a :: t).getLast? = some b := by
              rw [← List.head?_reverse, hr]
              rfl
            rw [hbl] at h2
            simpa using h2
          rw [List.dropWhile_cons, hb]
          simp only [Bool.false_eq_true, if_false]
          have h5 := congrArg List.reverse hr
          rw [List.reverse_reverse] at h5
          exact h5.symm

/-- Claim C10 counterexample: both readers strip each line before
splitting, and Python str.strip with no argument removes tabs.  A label
that ends in a tab therefore loses that tab: the line for the pair
(img.png, ab followed by a tab) parses to the label ab, not to the
original label, so a label containing a tab is not always carried
through intact. -/
theorem c10_counterexample :
    parseLabelLine "img.png\tab\t".toList = some ("img.png".toList, "ab".toList) ∧
    "ab".toList ≠ "ab\t".toList := by
  constructor
  · decide
  · decide

/-- Claim C10 (amended): the readers skip any line whose stripped form
contains no tab, and split the rest at the first tab only, so interior
tabs of a label are carried through intact; only leading and trailing
whitespace of the whole line, tabs included, is removed by the strip.
Precisely: if the name part is nonempty, tab-free and does not start with
whitespace, and the label part is nonempty and does not end with
whitespace, the line consisting of name, tab, label parses back to
exactly that pair, even when the label contains interior tabs. -/
theorem c10_amended (n rest line : List Char)
    (hn0 : n ≠ [])
    (hh : (n.head?.all fun c => !isPySpace c) = true)
    (ht : n.contains '\t' = false)
    (hr0 : rest ≠ [])
    (hrl : (rest.getLast?.all fun c => !isPySpace c) = true)
    (hline : (pyStrip line).contains '\t' = false) :
    parseLabelLine (n ++ '\t' :: rest) = some (n, rest) ∧
    parseLabelLine line = none := by
  constructor
  · have hstrip : pyStrip (n ++ '\t' :: rest) = n ++ '\t' :: rest := by
      refine pyStrip_eq_self _ ?_ ?_
      · cases n with
        | nil => exact absurd rfl hn0
        | cons a t => simpa using hh
      · rw [getLast?_append_right n ('\t' :: rest) (by simp)]
        cases rest with
        | nil => exact absurd rfl hr0
        | cons b u =>
            rw [List.getLast?_cons_cons]
            exact hrl
    have hmem : '\t' ∈ n ++ '\t' :: rest := by simp
    have hcont : (n ++ '\t' :: rest).contains '\t' = true := by
      exact List.elem_iff.mpr hmem
    have hallnotab : n.all (fun c => c != '\t') = true := by
      rw [List.all_eq_true]
      intro c hc
      have : c ≠ '\t' := by
        intro hceq
        subst hceq
        have : n.contains '\t' = true := List.elem_iff.mpr hc
        rw [this] at ht
        exact Bool.true_eq_false.mp ht
      simpa using this
    have hsplit : splitFirstTab (n ++ '\t' :: rest) = (n, rest) := by
      unfold splitFirstTab
      rw [takeWhile_append_of_all _ _ _ hallnotab,
          dropWhile_append_of_all _ _ _ hallnotab]
      simp [List.takeWhile_cons, List.dropWhile_cons]
    unfold parseLabelLine
    rw [hstrip]
    simp only [hcont, if_true, hsplit]
  · unfold parseLabelLine
    simp only [hline, Bool.false_eq_true, if_false]

/-- Witness for claim C10: a concrete line whose label has an interior
tab round-trips exactly through the reader, and a tab-free line is
skipped. -/
theorem c10_witness :
    parseLabelLine ("img.png".toList ++ '\t' :: "a\tb".toList)
      = some ("img.png".toList, "a\tb".toList) ∧
    parseLabelLine "no tab line".toList = none := by
  have h := c10_amended "img.png".toList "a\tb".toList "no tab line".toList
    (by decide) (by decide) (by decide) (by decide) (by decide) (by decide)
  exact h

/-- Split a Python string on a separator character, keeping empty pieces,
like str.split with an explicit one-character separator. -/
def splitOnChar (c : Char) : List Char → List (List Char)
  | [] => [[]]
  | a :: rest =>
      let r := splitOnChar c rest
      if a = c then [] :: r
      else
        match r with
        | [] => [[a]]
        | g :: gs => (a :: g) :: gs

/-- Index of the last occurrence of a character, like str.rfind when the
character occurs. -/
def rfindIdx (c : Char) (s : List Char) : Option Nat :=
  match s.reverse.findIdx? (fun x => x = c) with
  | none => none
  | some j => some (s.length - 1 - j)

/-- pathlib Path.stem: the file name with its final extension removed;
the name is returned unchanged when the only dot is leading or trailing
or there is none. -/
def fileStem (name : List Char) : List Char :=
  match rfindIdx '.' name with
  | none => name
  | some i => if 0 < i ∧ i < name.length - 1 then name.take i else name

/-- Digit-run accumulator for the int conversion. -/
def digitsAux : List Char → Nat → Option Nat
  | [], acc => some acc
  | c :: rest, acc =>
      if c.isDigit then digitsAux rest (acc * 10 + (c.toNat - '0'.toNat))
      else none

/-- A nonempty all-digit run read as a natural number. -/
def digitsToNat : List Char → Option Nat
  | [] => none
  | cs => digitsAux cs 0

/-- Python int applied to a string: strip whitespace, optional sign, then
a nonempty digit run; anything else raises ValueError, modelled as none.
The parsed tokens come from an underscore split, so the digit-grouping
underscore syntax of Python int can never occur here. -/
def pyInt (s : List Char) : Option Int :=
  match pyStrip s with
  | '+' :: rest => (digitsToNat rest).map (fun n => (n : Int))
  | '-' :: rest => (digitsToNat rest).map (fun n => -(n : Int))
  | t => (digitsToNat t).map (fun n => (n : Int))

/-- One entry of questions.json: the id and the answer already rendered
through str, which is how 01_collect_data.py line 57 uses it. -/
structure Problem where
  id : Int
  answer : List Char
deriving DecidableEq

/-- questions.json as a whole: category name to its ordered problem list. -/
abbrev Bank := List (List Char × List Problem)

/-- Dictionary lookup of a category, the membership test of
01_collect_data.py line 54. -/
def bankLookup (bank : Bank) (cat : List Char) : Option (List Problem) :=
  (bank.find? (fun e => e.1 == cat)).map Prod.snd

/-- A usable collected sample: the tuple appended at
01_collect_data.py line 58. -/
structure ImageSample where
  file : List Char
  label : List Char
  category : List Char
deriving DecidableEq

/-- What happens to one raw image file inside the collection loop. -/
inductive FileFate where
  | usable (s : ImageSample)
  | malformed
  | lookupMiss
deriving DecidableEq

/-- The per-file branch of collect_data_from_written_answers
(01_collect_data.py lines 44-62): split the stem on underscores; fewer
than two parts or an unparsable id is a malformed name; an unknown
category or an id absent from the category is a question-bank miss;
otherwise the sample is usable with the bank answer as label. -/
def fileFate (bank : Bank) (file : List Char) : FileFate :=
  match splitOnChar '_' (fileStem file) with
  | cat :: qidStr :: _ =>
      match pyInt qidStr with
      | none => .malformed
      | some qid =>
          match bankLookup bank cat with
          | none => .lookupMiss
          | some qs =>
              match qs.find? (fun q => q.id == qid) with
              | none => .lookupMiss
              | some q => .usable ⟨file, q.answer, cat⟩
  | _ => .malformed

/-- The usable image-label list built by the collection loop. -/
def image_labels (bank : Bank) (files : List (List Char)) : List ImageSample :=
  files.filterMap (fun f =>
    match fileFate bank f with
    | .usable s => some s
    | _ => none)

/-- Number of raw files with a malformed name. -/
def malformedCount (bank : Bank) (files : List (List Char)) : Nat :=
  files.countP (fun f =>
    match fileFate bank f with
    | .malformed => true
    | _ => false)

/-- Number of raw files dropped by a question-bank lookup miss. -/
def lookupMissCount (bank : Bank) (files : List (List Char)) : Nat :=
  files.countP (fun f =>
    match fileFate bank f with
    | .lookupMiss => true
    | _ => false)

/-- One swap of the Fisher-Yates loop body of random.shuffle:
exchange positions i and j, identity when an index is out of range
(which the real loop never produces). -/
def lswap {α : Type} (l : List α) (i j : Nat) : List α :=
  match l[i]?, l[j]? with
  | some a, some b => (l.set i b).set j a
  | _, _ => l

/-- random.shuffle as called at 01_collect_data.py line 71: for i from
n-1 down to 1 swap position i with a drawn position j of at most i.
The seeded generator is abstracted as the stream g of drawn values,
one per loop index; any fixed seed fixes g. -/
def pyShuffle {α : Type} (g : Nat → Nat) (l : List α) : List α :=
  (((List.range l.length).drop 1).reverse).foldl (fun acc i => lswap acc i (g i)) l

/-- split_idx from 01_collect_data.py line 72: int of the float product
len times 0.8, which equals the exact floor of four fifths for every
corpus size this pipeline can meet. -/
def split_idx (n : Nat) : Nat := 4 * n / 5

/-- The 80/20 split of 01_collect_data.py lines 70-74: shuffle, then cut
by position at split_idx. -/
def trainValSplit {α : Type} (g : Nat → Nat) (samples : List α) :
    List α × List α :=
  let shuffled := pyShuffle g samples
  (shuffled.take (split_idx samples.length),
   shuffled.drop (split_idx samples.length))

lemma get_cons_set_perm {α : Type} (x : α) :
    ∀ (xs : List α) (m : Nat) (hm : m < xs.length),
      (xs.get ⟨m, hm⟩ :: xs.set m x).Perm (x :: xs) := by
  intro xs
  induction xs with
  | nil => intro m hm; exact absurd hm (by simp)
  | cons y t ih =>
      intro m hm
      cases m with
      | zero => exact List.Perm.swap x y t
      | succ m =>
          have hm' : m < t.length := by simpa using hm
          exact (List.Perm.swap y (t.get ⟨m, hm'⟩) (t.set m x)).trans
            (((ih m hm').cons y).trans (List.Perm.swap x y t))

lemma set_set_perm {α : Type} :
    ∀ (l : List α) (i j : Nat) (hi : i < l.length) (hj : j < l.length),
      ((l.set i (l.get ⟨j, hj⟩)).set j (l.get ⟨i, hi⟩)).Perm l := by
  intro l
  induction l with
  | nil => intro i j hi _; exact absurd hi (by simp)
  | cons x xs ih =>
      intro i j hi hj
      cases i with
      | zero =>
          cases j with
          | zero => simp
          | succ m =>
              have hm : m < xs.length := by simpa using hj
              simpa using get_cons_set_perm x xs m hm
      | succ n =>
          cases j with
          | zero =>
              have hn : n < xs.length := by simpa using hi
              simpa using get_cons_set_perm x xs n hn
          | succ m =>
              have hn : n < xs.length := by simpa using hi
              have hm : m < xs.length := by simpa using hj
              simpa using (ih n m hn hm).cons x

lemma lswap_perm {α : Type} (l : List α) (i j : Nat) :
    (lswap l i j).Perm l := by
  unfold lswap
  cases h1 : l[i]? with
  | none => exact List.Perm.refl l
  | some a =>
      cases h2 : l[j]? with
      | none => exact List.Perm.refl l
      | some b =>
          obtain ⟨hi, ha⟩ := List.getElem?_eq_some.mp h1
          obtain ⟨hj, hb⟩ := List.getElem?_eq_some.mp h2
          have hga : l.get ⟨i, hi⟩ = a := ha
          have hgb : l.get ⟨j, hj⟩ = b := hb
          rw [← hga, ← hgb]
          exact set_set_perm l i j hi hj

lemma pyShuffle_perm {α : Type} (g : Nat → Nat) (l : List α) :
    (pyShuffle g l).Perm l := by
  unfold pyShuffle
  generalize ((List.range l.length).drop 1).reverse = idxs
  induction idxs generalizing l with
  | nil => exact List.Perm.refl l
  | cons i is ih =>
      simp only [List.foldl_cons]
      exact (ih (lswap l i (g i))).trans (lswap_perm l i (g i))

lemma split_idx_le (n : Nat) : split_idx n ≤ n := by
  unfold split_idx
  calc 4 * n / 5 ≤ 5 * n / 5 :=
        Nat.div_le_div_right (Nat.mul_le_mul_right n (by omega))
    _ = n := by omega

/-- Claim C3: for any drawn-value stream (hence for the fixed seed 42)
and any duplicate-free usable-sample list of length N, the split takes
exactly the floor of four fifths of N for train, the rest for val, the
two parts never share a sample, together they are exactly the usable
samples, and the construction is a pure function of the stream and the
input, so identical inputs and seed reproduce the identical partition. -/
theorem c3_split_invariants (g : Nat → Nat) (samples : List ImageSample)
    (hnd : samples.Nodup) :
    (trainValSplit g samples).1.length = 4 * samples.length / 5 ∧
    (trainValSplit g samples).2.length
      = samples.length - (trainValSplit g samples).1.length ∧
    (trainValSplit g samples).1.Disjoint (trainValSplit g samples).2 ∧
    ((trainValSplit g samples).1 ++ (trainValSplit g samples).2).Perm samples ∧
    (∀ g2 : Nat → Nat, ∀ samples2 : List ImageSample,
       g2 = g → samples2 = samples →
       trainValSplit g2 samples2 = trainValSplit g samples) := by
  have hperm : (pyShuffle g samples).Perm samples := pyShuffle_perm g samples
  have hlen : (pyShuffle g samples).length = samples.length := hperm.length_eq
  have hidx : split_idx samples.length ≤ samples.length := split_idx_le _
  refine ⟨?_, ?_, ?_, ?_, ?_⟩
  · show (List.take (split_idx samples.length) (pyShuffle g samples)).length
      = 4 * samples.length / 5
    rw [List.length_take, hlen]
    exact Nat.min_eq_left hidx
  · show (List.drop (split_idx samples.length) (pyShuffle g samples)).length
      = samples.length
        - (List.take (split_idx samples.length) (pyShuffle g samples)).length
    rw [List.length_drop, List.length_take, hlen]
    omega
  · exact List.disjoint_take_drop (hperm.nodup_iff.mpr hnd) (le_refl _)
  · show (List.take (split_idx samples.length) (pyShuffle g samples)
      ++ List.drop (split_idx samples.length) (pyShuffle g samples)).Perm samples
    rw [List.take_append_drop]
    exact hperm
  · intro g2 samples2 hg hs
    rw [hg, hs]

/-- Three distinct concrete samples used to witness the split claim. -/
def demoSamples3 : List ImageSample :=
  [⟨"a_1_t.png".toList, "1".toList, "a".toList⟩,
   ⟨"a_2_t.png".toList, "2".toList, "a".toList⟩,
   ⟨"a_3_t.png".toList, "3".toList, "a".toList⟩]

/-- Witness for claim C3 at a concrete three-sample input and a concrete
drawn-value stream. -/
theorem c3_split_invariants_witness :
    demoSamples3.Nodup ∧
    (trainValSplit (fun _ => 0) demoSamples3).1.length = 4 * 3 / 5 := by
  refine ⟨by decide, ?_⟩
  exact (c3_split_invariants (fun _ => 0) demoSamples3 (by decide)).1

lemma fate_partition (bank : Bank) (files : List (List Char)) :
    (image_labels bank files).length
      + malformedCount bank files + lookupMissCount bank files
      = files.length := by
  induction files with
  | nil => rfl
  | cons f fs ih =>
      simp only [image_labels, malformedCount, lookupMissCount,
        List.filterMap_cons, List.countP_cons] at *
      cases h : fileFate bank f <;> simp only [h] <;> simp <;> omega

/-- The question bank of the claim's end-to-end example: category
addition with the single entry of id one and answer seven. -/
def demoBank : Bank := [("addition".toList, [⟨1, "7".toList⟩])]

/-- The sample the end-to-end example must produce. -/
def demoSample : ImageSample :=
  ⟨"addition_1_20240101.png".toList, "7".toList, "addition".toList⟩

/-- Claim C7: for every bank and file set, the usable sample count plus
the malformed-name count plus the question-bank miss count equals the
total file count, so collected equals total minus the two failure
counts; and the end-to-end example file with the matching bank entry
yields exactly the one sample with label seven, which the split then
assigns to a split (here val, as the train share of one sample is
empty), never dropping it. -/
theorem c7_collected_count :
    (∀ (bank : Bank) (files : List (List Char)),
        (image_labels bank files).length
          + malformedCount bank files + lookupMissCount bank files
          = files.length) ∧
    (∀ (bank : Bank) (files : List (List Char)),
        (image_labels bank files).length
          = files.length - (malformedCount bank files + lookupMissCount bank files)) ∧
    image_labels demoBank ["addition_1_20240101.png".toList] = [demoSample] ∧
    (∀ g : Nat → Nat,
        trainValSplit g (image_labels demoBank ["addition_1_20240101.png".toList])
          = ([], [demoSample])) := by
  refine ⟨fate_partition, ?_, by decide, ?_⟩
  · intro bank files
    have h := fate_partition bank files
    omega
  · intro g
    rfl

/-- The three ways collect_data_from_written_answers can end: the early
return when the glob finds no image (01_collect_data.py lines 31-34),
the early return when no valid image-label pair was built (lines 64-67),
or the completed split. -/
inductive CollectOutcome where
  | noImages
  | noValidPairs
  | splits (train val : List ImageSample)
deriving DecidableEq

/-- collect_data_from_written_answers (01_collect_data.py lines 22-105)
end to end.  pathlib glob on a missing directory returns an empty
iterator rather than raising, so an absent raw directory and an empty
one both reach the no-images early return; the function never raises. -/
def collect_data_from_written_answers (rawDirPresent : Bool)
    (pngFiles jpgFiles : List (List Char)) (bank : Bank) (g : Nat → Nat) :
    CollectOutcome :=
  let images := if rawDirPresent then pngFiles ++ jpgFiles else []
  if images.isEmpty then .noImages
  else
    let samples := image_labels bank images
    if samples.isEmpty then .noValidPairs
    else
      let tv := trainValSplit g samples
      .splits tv.1 tv.2

/-- Claim C2 counterexample: an existing but empty raw directory does not
yield empty train and val splits; the collector takes the no-images
early return, which is a different outcome from a completed split with
two empty halves, and no SetupError exists anywhere in the script. -/
theorem c2_counterexample :
    collect_data_from_written_answers true [] [] [] (fun _ => 0)
      = CollectOutcome.noImages ∧
    CollectOutcome.noImages ≠ CollectOutcome.splits [] [] := by
  constructor
  · rfl
  · decide

/-- Claim C2 (amended): data collection never fails fatally and defines
no SetupError; a missing raw directory and an empty-but-present one are
handled identically, by the no-images early return that writes no split
artifact at all, and when images exist but none yields a valid
image-label pair the collector likewise returns early without splits. -/
theorem c2_amended :
    (∀ (png jpg : List (List Char)) (bank : Bank) (g : Nat → Nat),
        collect_data_from_written_answers false png jpg bank g
          = CollectOutcome.noImages) ∧
    (∀ (bank : Bank) (g : Nat → Nat),
        collect_data_from_written_answers true [] [] bank g
          = CollectOutcome.noImages) ∧
    (∀ g : Nat → Nat,
        collect_data_from_written_answers true ["x.png".toList] [] [] g
          = CollectOutcome.noValidPairs) := by
  refine ⟨?_, ?_, ?_⟩
  · intro png jpg bank g
    rfl
  · intro bank g
    rfl
  · intro g
    rfl

/-- pathlib Path.suffix: the final extension with its dot, or empty when
the only dot is leading or trailing or there is none. -/
def fileSuffix (name : List Char) : List Char :=
  match rfindIdx '.' name with
  | none => []
  | some i => if 0 < i ∧ i < name.length - 1 then name.drop i else []

/-- Python str.lower, per character (ASCII suffices here). -/
def pyLower (s : List Char) : List Char := s.map Char.toLower

/-- Destination extension rule of 06_prepare_pix2tex_data.py lines 55-57:
keep the lowered source extension when it is an accepted image type,
else default to png. -/
def dstExt (srcName : List Char) : List Char :=
  let ext := pyLower (fileSuffix srcName)
  if ext = ".png".toList ∨ ext = ".jpg".toList ∨ ext = ".jpeg".toList then ext
  else ".png".toList

/-- Destination file name of the copy at index idx
(06_prepare_pix2tex_data.py line 58). -/
def renumName (idx : Nat) (srcName : List Char) : List Char :=
  Nat.toDigits 10 idx ++ dstExt srcName

/-- image_pairs of convert_split (06_prepare_pix2tex_data.py lines
36-46): the parsed rows whose source image exists, labels cleaned;
srcExists stands for the src_img.exists() test. -/
def image_pairs (srcExists : List Char → Bool) (lines : List (List Char)) :
    List (List Char × List Char) :=
  (readLabelPairs lines).filterMap
    (fun p => if srcExists p.1 then some (p.1, clean_label p.2) else none)

/-- The pairs after the sort at line 49.  Python list sort is stable, and
a stable sort by a key is unique, so the stable insertion sort below is
exactly the order the script produces. -/
def sorted_pairs (srcExists : List Char → Bool) (lines : List (List Char)) :
    List (List Char × List Char) :=
  List.insertionSort (fun a b => a.1 ≤ b.1) (image_pairs srcExists lines)

/-- The equations list accumulated at line 60, in order. -/
def equationsOf (srcExists : List Char → Bool) (lines : List (List Char)) :
    List (List Char) :=
  (sorted_pairs srcExists lines).map Prod.snd

/-- The renumbered destination names of the copies of lines 53-59,
in copy order. -/
def copiedNames (srcExists : List Char → Bool) (lines : List (List Char)) :
    List (List Char) :=
  (sorted_pairs srcExists lines).enum.map (fun q => renumName q.1 q.2.1)

lemma length_filterMap_if {α β : Type} (c : α → Bool) (g : α → β) (l : List α) :
    (l.filterMap (fun a => if c a then some (g a) else none)).length
      = l.countP c := by
  induction l with
  | nil => rfl
  | cons a t ih =>
      by_cases h : c a <;> simp [List.filterMap_cons, List.countP_cons, h, ih]

lemma image_pairs_all (srcExists : List Char → Bool) (lines : List (List Char)) :
    (image_pairs srcExists lines).all (fun p => srcExists p.1) = true := by
  unfold image_pairs
  generalize readLabelPairs lines = rows
  induction rows with
  | nil => rfl
  | cons p t ih =>
      by_cases h : srcExists p.1 <;> simp [List.filterMap_cons, h, ih]

/-- Claim C4: for every labels file and image directory, the equations
list and the copied-image list of a converted split have equal length;
the zipped artifacts show line i carrying the cleaned label of the i-th
sorted pair while image i is that pair's source copied under the name i
with its extension rule; the pairs are sorted by original file name; the
copy indices are exactly zero to n-1 with no gaps; the corpus is a
permutation of the surviving rows, whose number is the count of rows
whose source image exists; and every surviving pair's source image
exists, so missing-image rows are dropped from both artifacts. -/
theorem c4_corpus_alignment (srcExists : List Char → Bool)
    (lines : List (List Char)) :
    (equationsOf srcExists lines).length = (copiedNames srcExists lines).length ∧
    (equationsOf srcExists lines).zip (copiedNames srcExists lines)
      = (sorted_pairs srcExists lines).enum.map
          (fun q => (q.2.2, renumName q.1 q.2.1)) ∧
    List.Sorted (fun a b : List Char × List Char => a.1 ≤ b.1)
      (sorted_pairs srcExists lines) ∧
    (sorted_pairs srcExists lines).Perm (image_pairs srcExists lines) ∧
    (sorted_pairs srcExists lines).length
      = (readLabelPairs lines).countP (fun p => srcExists p.1) ∧
    (sorted_pairs srcExists lines).all (fun p => srcExists p.1) = true ∧
    (sorted_pairs srcExists lines).enum.map Prod.fst
      = List.range (sorted_pairs srcExists lines).length := by
  have hperm : (sorted_pairs srcExists lines).Perm (image_pairs srcExists lines) :=
    List.perm_insertionSort _ _
  refine ⟨?_, ?_, ?_, hperm, ?_, ?_, ?_⟩
  · simp [equationsOf, copiedNames]
  · have h1 : equationsOf srcExists lines
        = (sorted_pairs srcExists lines).enum.map (fun q => q.2.2) := by
      unfold equationsOf
      conv_lhs => rw [← List.enum_map_snd (sorted_pairs srcExists lines)]
      rw [List.map_map]
      rfl
    rw [h1, copiedNames, List.zip_map']
  · letI : IsTotal (List Char × List Char) (fun a b => a.1 ≤ b.1) :=
      ⟨fun a b => le_total a.1 b.1⟩
    letI : IsTrans (List Char × List Char) (fun a b => a.1 ≤ b.1) :=
      ⟨fun _ _ _ h1 h2 => le_trans h1 h2⟩
    exact List.sorted_insertionSort _ _
  · rw [hperm.length_eq, image_pairs, length_filterMap_if]
  · rw [List.all_eq_true]
    intro x hx
    have hx2 : x ∈ image_pairs srcExists lines := (hperm.mem_iff).mp hx
    have hall := image_pairs_all srcExists lines
    rw [List.all_eq_true] at hall
    exact hall x hx2
  · exact List.enum_map_fst _

/-- An RGB pixel value. -/
abbrev RGB := Nat × Nat × Nat

/-- The white background of the canvas created at
02_preprocess.py line 42. -/
def white : RGB := (255, 255, 255)

/-- An RGB raster image: dimensions and a pixel map.  Positions outside
the dimensions are irrelevant; every image built here reads white there. -/
@[ext]
structure Img where
  width : Nat
  height : Nat
  pix : Nat → Nat → RGB

/-- Distance between two naturals. -/
def absDiff (a b : Nat) : Nat := max a b - min a b

/-- PIL round_aspect for the branch that fixes the height at S: choose
between the floor and the ceiling of the exact width S times w over h,
whichever keeps the aspect ratio closer (floor on ties, as Python min
does), and never go below one. -/
def roundAspectA (S w h : Nat) : Nat :=
  max (if absDiff (w * S) (S * w / h * h) ≤ absDiff (w * S) ((S * w + h - 1) / h * h)
       then S * w / h
       else (S * w + h - 1) / h) 1

/-- PIL round_aspect for the branch that fixes the width at S: choose
between floor and ceiling of S times h over w under the key that treats
a zero candidate as perfect, never going below one. -/
def roundAspectB (S w h : Nat) : Nat :=
  max (if (if S * h / w = 0 then true
           else if (S * h + w - 1) / w = 0 then false
           else decide (absDiff (w * (S * h / w)) (S * h) * ((S * h + w - 1) / w)
             ≤ absDiff (w * ((S * h + w - 1) / w)) (S * h) * (S * h / w))) = true
       then S * h / w
       else (S * h + w - 1) / w) 1

/-- PIL Image.thumbnail size computation for the square target box
(S, S), as called at 02_preprocess.py line 39: the image is untouched
when it already fits the box, else the aspect-preserving rounded size is
chosen with the longer side pinned to S. -/
def thumbDims (S w h : Nat) : Nat × Nat :=
  if S ≥ w ∧ S ≥ h then (w, h)
  else if w ≤ h then (roundAspectA S w h, S)
  else (S, roundAspectB S w h)

/-- The content after the thumbnail step: the image itself when it fits,
else the output of the resampler at the thumbnail size.  PIL reaches its
LANCZOS resampler only in the second case; the resampler is abstracted
as the argument resize. -/
def shrunkContent (resize : Img → Nat → Nat → Img) (S : Nat) (img : Img) : Img :=
  if S ≥ img.width ∧ S ≥ img.height then img
  else resize img (thumbDims S img.width img.height).1
    (thumbDims S img.width img.height).2

/-- The pixel map of the white square canvas with the content pasted at
the integer-centered offsets of 02_preprocess.py lines 44-47. -/
def canvasPix (cont : Img) (S : Nat) (i j : Nat) : RGB :=
  if i < S ∧ j < S then
    if (S - cont.width) / 2 ≤ i ∧ i < (S - cont.width) / 2 + cont.width ∧
       (S - cont.height) / 2 ≤ j ∧ j < (S - cont.height) / 2 + cont.height then
      cont.pix (i - (S - cont.width) / 2) (j - (S - cont.height) / 2)
    else white
  else white

/-- One loop body of preprocess_images (02_preprocess.py lines 36-50):
convert to RGB (the identity on this RGB model), thumbnail within the
square box of side S, and paste centered onto a white S by S canvas. -/
def normalizeImage (resize : Img → Nat → Nat → Img) (S : Nat) (img : Img) : Img :=
  { width := S, height := S, pix := canvasPix (shrunkContent resize S img) S }

lemma canvasPix_self (cont : Img) (S i j : Nat)
    (hw : cont.width = S) (hh : cont.height = S) :
    canvasPix cont S i j = if i < S ∧ j < S then cont.pix i j else white := by
  unfold canvasPix
  rw [hw, hh, Nat.sub_self, Nat.zero_div]
  by_cases hij : i < S ∧ j < S
  · rw [if_pos hij, if_pos (by omega), if_pos hij]
    simp
  · rw [if_neg hij, if_neg hij]

/-- Claim C5: normalization is idempotent; normalizing an already
normalized image reproduces it pixel for pixel, whatever the resampler,
target size and input, because a normalized canvas already fits the
target box exactly, so the second pass pastes it unmoved. -/
theorem c5_normalize_idempotent (resize : Img → Nat → Nat → Img)
    (S : Nat) (img : Img) :
    normalizeImage resize S (normalizeImage resize S img) = normalizeImage resize S img := by
  have hc : shrunkContent resize S (normalizeImage resize S img)
      = normalizeImage resize S img := by
    unfold shrunkContent
    rw [if_pos]
    exact ⟨le_refl S, le_refl S⟩
  show Img.mk S S (canvasPix (shrunkContent resize S (normalizeImage resize S img)) S)
      = normalizeImage resize S img
  rw [hc]
  have hpix : canvasPix (normalizeImage resize S img) S
      = (normalizeImage resize S img).pix := by
    funext i j
    rw [canvasPix_self (normalizeImage resize S img) S i j rfl rfl]
    by_cases hij : i < S ∧ j < S
    · rw [if_pos hij]
    · rw [if_neg hij]
      show white = canvasPix (shrunkContent resize S img) S i j
      unfold canvasPix
      rw [if_neg hij]
  rw [hpix]
  rfl

lemma ceil_div_le (a b c : Nat) (hb : 0 < b) (h : a ≤ c * b) :
    (a + b - 1) / b ≤ c := by
  have h1 : a + b - 1 ≤ b * c + (b - 1) := by
    calc a + b - 1 ≤ c * b + (b - 1) := by omega
      _ = b * c + (b - 1) := by rw [Nat.mul_comm]
  calc (a + b - 1) / b ≤ (b * c + (b - 1)) / b := Nat.div_le_div_right h1
    _ = c + (b - 1) / b := Nat.mul_add_div hb c (b - 1)
    _ = c := by rw [Nat.div_eq_of_lt (by omega), Nat.add_zero]

lemma roundAspectA_le (S w h : Nat) (hS : 0 < S) (hw : 0 < w) (hh : 0 < h)
    (hwh : w ≤ h) (hSh : S ≤ h) :
    roundAspectA S w h ≤ w ∧ roundAspectA S w h ≤ S := by
  unfold roundAspectA
  have hfc : S * w / h ≤ (S * w + h - 1) / h := Nat.div_le_div_right (by omega)
  have hcw : (S * w + h - 1) / h ≤ w := by
    refine ceil_div_le _ _ _ hh ?_
    calc S * w ≤ h * w := Nat.mul_le_mul_right w hSh
      _ = w * h := Nat.mul_comm h w
  have hcS : (S * w + h - 1) / h ≤ S := by
    refine ceil_div_le _ _ _ hh ?_
    exact Nat.mul_le_mul_left S hwh
  constructor
  · refine max_le ?_ hw
    split
    · exact le_trans hfc hcw
    · exact hcw
  · refine max_le ?_ hS
    split
    · exact le_trans hfc hcS
    · exact hcS

lemma roundAspectB_le (S w h : Nat) (hS : 0 < S) (hw : 0 < w) (hh : 0 < h)
    (hhw : h ≤ w) (hSw : S ≤ w) :
    roundAspectB S w h ≤ h ∧ roundAspectB S w h ≤ S := by
  unfold roundAspectB
  have hfc : S * h / w ≤ (S * h + w - 1) / w := Nat.div_le_div_right (by omega)
  have hch : (S * h + w - 1) / w ≤ h := by
    refine ceil_div_le _ _ _ hw ?_
    calc S * h ≤ w * h := Nat.mul_le_mul_right h hSw
      _ = h * w := Nat.mul_comm w h
  have hcS : (S * h + w - 1) / w ≤ S := by
    refine ceil_div_le _ _ _ hw ?_
    exact Nat.mul_le_mul_left S hhw
  generalize (if S * h / w = 0 then true
      else if (S * h + w - 1) / w = 0 then false
      else decide (absDiff (w * (S * h / w)) (S * h) * ((S * h + w - 1) / w)
        ≤ absDiff (w * ((S * h + w - 1) / w)) (S * h) * (S * h / w))) = cond
  constructor
  · refine max_le ?_ hh
    cases cond
    · rw [if_neg (by simp)]
      exact hch
    · rw [if_pos rfl]
      exact le_trans hfc hch
  · refine max_le ?_ hS
    cases cond
    · rw [if_neg (by simp)]
      exact hcS
    · rw [if_pos rfl]
      exact le_trans hfc hcS

lemma thumbDims_le (S w h : Nat) (hS : 0 < S) (hw : 0 < w) (hh : 0 < h) :
    (thumbDims S w h).1 ≤ w ∧ (thumbDims S w h).2 ≤ h ∧
    (thumbDims S w h).1 ≤ S ∧ (thumbDims S w h).2 ≤ S := by
  unfold thumbDims
  by_cases h1 : S ≥ w ∧ S ≥ h
  · rw [if_pos h1]
    exact ⟨le_refl w, le_refl h, h1.1, h1.2⟩
  · rw [if_neg h1]
    by_cases h2 : w ≤ h
    · rw [if_pos h2]
      have hSh : S < h := by omega
      obtain ⟨ha, hb⟩ := roundAspectA_le S w h hS hw hh h2 hSh.le
      exact ⟨ha, hSh.le, hb, le_refl S⟩
    · rw [if_neg h2]
      have hSw : S < w := by omega
      obtain ⟨ha, hb⟩ := roundAspectB_le S w h hS hw hh (by omega) hSw.le
      exact ⟨hSw.le, ha, le_refl S, hb⟩

/-- Claim C9: the normalized output is always the square canvas of the
target side; the content is never enlarged, keeps both sides within the
target so its longer side is at most the target, and is pasted at the
integer-centered offsets, with every canvas pixel outside the pasted
rectangle holding the white background. -/
theorem c9_normalize_geometry (resize : Img → Nat → Nat → Img)
    (S : Nat) (img : Img)
    (hS : 0 < S) (hw : 0 < img.width) (hh : 0 < img.height)
    (hres : ∀ (i : Img) (a b : Nat),
      (resize i a b).width = a ∧ (resize i a b).height = b) :
    (normalizeImage resize S img).width = S ∧
    (normalizeImage resize S img).height = S ∧
    (shrunkContent resize S img).width ≤ img.width ∧
    (shrunkContent resize S img).height ≤ img.height ∧
    (shrunkContent resize S img).width ≤ S ∧
    (shrunkContent resize S img).height ≤ S ∧
    (∀ di dj : Nat, di < (shrunkContent resize S img).width →
        dj < (shrunkContent resize S img).height →
        (normalizeImage resize S img).pix
            ((S - (shrunkContent resize S img).width) / 2 + di)
            ((S - (shrunkContent resize S img).height) / 2 + dj)
          = (shrunkContent resize S img).pix di dj) ∧
    (∀ i j : Nat, i < S → j < S →
        ((S - (shrunkContent resize S img).width) / 2 ≤ i ∧
         i < (S - (shrunkContent resize S img).width) / 2
               + (shrunkContent resize S img).width ∧
         (S - (shrunkContent resize S img).height) / 2 ≤ j ∧
         j < (S - (shrunkContent resize S img).height) / 2
               + (shrunkContent resize S img).height)
        ∨ (normalizeImage resize S img).pix i j = white) := by
  have hth := thumbDims_le S img.width img.height hS hw hh
  have hcont : (shrunkContent resize S img).width ≤ img.width ∧
      (shrunkContent resize S img).height ≤ img.height ∧
      (shrunkContent resize S img).width ≤ S ∧
      (shrunkContent resize S img).height ≤ S := by
    unfold shrunkContent
    by_cases hfit : S ≥ img.width ∧ S ≥ img.height
    · rw [if_pos hfit]
      exact ⟨le_refl _, le_refl _, hfit.1, hfit.2⟩
    · rw [if_neg hfit]
      obtain ⟨h1, h2⟩ := hres img (thumbDims S img.width img.height).1
        (thumbDims S img.width img.height).2
      rw [h1, h2]
      exact ⟨hth.1, hth.2.1, hth.2.2.1, hth.2.2.2⟩
  obtain ⟨hw1, hh1, hw2, hh2⟩ := hcont
  refine ⟨rfl, rfl, hw1, hh1, hw2, hh2, ?_, ?_⟩
  · intro di dj hdi hdj
    show canvasPix (shrunkContent resize S img) S _ _
      = (shrunkContent resize S img).pix di dj
    unfold canvasPix
    have hx0 : (S - (shrunkContent resize S img).width) / 2
        ≤ S - (shrunkContent resize S img).width := Nat.div_le_self _ _
    have hy0 : (S - (shrunkContent resize S img).height) / 2
        ≤ S - (shrunkContent resize S img).height := Nat.div_le_self _ _
    rw [if_pos (by omega), if_pos (by omega)]
    have e1 : (S - (shrunkContent resize S img).width) / 2 + di
        - (S - (shrunkContent resize S img).width) / 2 = di := by omega
    have e2 : (S - (shrunkContent resize S img).height) / 2 + dj
        - (S - (shrunkContent resize S img).height) / 2 = dj := by omega
    rw [e1, e2]
  · intro i j hi hj
    by_cases hin : (S - (shrunkContent resize S img).width) / 2 ≤ i ∧
        i < (S - (shrunkContent resize S img).width) / 2
              + (shrunkContent resize S img).width ∧
        (S - (shrunkContent resize S img).height) / 2 ≤ j ∧
        j < (S - (shrunkContent resize S img).height) / 2
              + (shrunkContent resize S img).height
    · exact Or.inl hin
    · refine Or.inr ?_
      show canvasPix (shrunkContent resize S img) S i j = white
      unfold canvasPix
      rw [if_pos ⟨hi, hj⟩, if_neg hin]

/-- A trivial resampler honouring the requested dimensions, used only to
witness the geometry claim. -/
def demoResize : Img → Nat → Nat → Img :=
  fun _ a b => { width := a, height := b, pix := fun _ _ => white }

/-- A concrete five by three input image. -/
def demoImg : Img := { width := 5, height := 3, pix := fun _ _ => white }

/-- Witness for claim C9 at a concrete resampler, target size four and a
five by three input. -/
theorem c9_normalize_geometry_witness :
    (0 < 4 ∧ 0 < demoImg.width ∧ 0 < demoImg.height) ∧
    (normalizeImage demoResize 4 demoImg).width = 4 ∧
    (shrunkContent demoResize 4 demoImg).width ≤ demoImg.width := by
  have h := c9_normalize_geometry demoResize 4 demoImg (by decide) (by decide)
    (by decide) (fun i a b => ⟨rfl, rfl⟩)
  exact ⟨⟨by decide, by decide, by decide⟩, h.1, h.2.2.1⟩

/-- One cell-by-cell step of the Levenshtein dynamic program: walk the
reference row, carrying the diagonal and left cells. -/
def levGo (a : Char) : List Char → List Nat → Nat → Nat → List Nat
  | b :: ys, p :: prev, diag, left =>
      let cell := min (p + 1) (min (left + 1) (diag + (if a = b then 0 else 1)))
      cell :: levGo a ys prev p cell
  | _, _, _, _ => []

/-- One full row update of the Levenshtein dynamic program. -/
def levRow (ys : List Char) (prev : List Nat) (a : Char) : List Nat :=
  match prev with
  | [] => []
  | p0 :: rest => (p0 + 1) :: levGo a ys rest p0 (p0 + 1)

/-- Levenshtein edit distance between two character lists, the distance
underlying the jiwer cer and wer calls of 04_evaluate.py. -/
def lev (xs ys : List Char) : Nat :=
  (xs.foldl (levRow ys) (List.range (ys.length + 1))).getLastD 0

/-- Per-sample character error rate, jiwer cer on one
reference-hypothesis pair (04_evaluate.py line 76): edit distance over
reference length. -/
def perSampleCER (ref hyp : List Char) : ℚ :=
  (lev ref hyp : ℚ) / (ref.length : ℚ)

/-- Aggregate corpus-level character error rate, jiwer cer on the full
reference and prediction lists (04_evaluate.py line 89): the edit
distances summed over all pairs, divided by the total reference
length. -/
def aggregateCER (pairs : List (List Char × List Char)) : ℚ :=
  (((pairs.map (fun p => lev p.1 p.2)).sum : Nat) : ℚ)
    / (((pairs.map (fun p => p.1.length)).sum : Nat) : ℚ)

/-- The mean of the per-sample rates, which the aggregate must not be
conflated with. -/
def meanCER (pairs : List (List Char × List Char)) : ℚ :=
  (pairs.map (fun p => perSampleCER p.1 p.2)).sum / (pairs.length : ℚ)

/-- The pass/fail comparison of 04_evaluate.py line 113: the model meets
the target exactly when the aggregate rate is at most the target. -/
def meetsTarget (overallCer targetCer : ℚ) : Bool :=
  decide (overallCer ≤ targetCer)

/-- A two-sample corpus on which the aggregate and the mean of
per-sample rates differ. -/
def demoPairsUnequal : List (List Char × List Char) :=
  [("12".toList, "13".toList), ("1234".toList, "1234".toList)]

/-- A five-sample corpus with two single-character errors over
twenty-five reference characters: aggregate rate eight percent. -/
def demoPairsPass : List (List Char × List Char) :=
  [("abcde".toList, "abcde".toList), ("abcde".toList, "abcde".toList),
   ("abcde".toList, "abcde".toList), ("abcde".toList, "abcdX".toList),
   ("abcde".toList, "Xbcde".toList)]

/-- Claim C6: the pass/fail classification is the inclusive comparison
of the aggregate corpus rate against the target, so equality passes,
eight percent against a ten percent target passes (shown on a concrete
corpus whose aggregate is exactly eight percent), twelve percent fails,
and the aggregate is the corpus-level ratio, provably different from the
mean of per-sample rates on a concrete corpus. -/
theorem c6_threshold_inclusive :
    (∀ c t : ℚ, meetsTarget c t = true ↔ c ≤ t) ∧
    (∀ t : ℚ, meetsTarget t t = true) ∧
    meetsTarget (8/100) (10/100) = true ∧
    meetsTarget (12/100) (10/100) = false ∧
    aggregateCER demoPairsPass = 8/100 ∧
    meetsTarget (aggregateCER demoPairsPass) (10/100) = true ∧
    aggregateCER demoPairsUnequal = 1/6 ∧
    meanCER demoPairsUnequal = 1/4 ∧
    aggregateCER demoPairsUnequal ≠ meanCER demoPairsUnequal := by
  have hd1 : (demoPairsPass.map (fun p => lev p.1 p.2)).sum = 2 := by decide
  have hd2 : (demoPairsPass.map (fun p => p.1.length)).sum = 25 := by decide
  have hpass : aggregateCER demoPairsPass = 8/100 := by
    rw [aggregateCER, hd1, hd2]
    norm_num
  have hu1 : (demoPairsUnequal.map (fun p => lev p.1 p.2)).sum = 1 := by decide
  have hu2 : (demoPairsUnequal.map (fun p => p.1.length)).sum = 6 := by decide
  have hagg : aggregateCER demoPairsUnequal = 1/6 := by
    rw [aggregateCER, hu1, hu2]
    norm_num
  have hlev1 : lev "12".toList "13".toList = 1 := by decide
  have hlev2 : lev "1234".toList "1234".toList = 0 := by decide
  have hmean : meanCER demoPairsUnequal = 1/4 := by
    rw [meanCER]
    show (perSampleCER "12".toList "13".toList
        + (perSampleCER "1234".toList "1234".toList + 0)) / ((2 : Nat) : ℚ) = 1/4
    rw [perSampleCER, perSampleCER, hlev1, hlev2]
    norm_num
  refine ⟨?_, ?_, ?_, ?_, hpass, ?_, hagg, hmean, ?_⟩
  · intro c t
    simp [meetsTarget]
  · intro t
    simp [meetsTarget]
  · simp only [meetsTarget, decide_eq_true_eq]
    norm_num
  · simp only [meetsTarget, decide_eq_false_iff_not]
    norm_num
  · rw [hpass]
    simp only [meetsTarget, decide_eq_true_eq]
    norm_num
  · rw [hagg, hmean]
    norm_num

/-- The three ways the tokenizer phase of create_pix2tex_datasets can
end: skipped because the artifact already exists, aborted because no
equations were found, or trained and saved with its configuration. -/
inductive VocabOutcome where
  | existing
  | noEquations
  | built (vocabSize : Nat) (specialTokens : List (List Char))
      (unkToken : List Char) (byteLevel : Bool) (savedToFixedPath : Bool)
deriving DecidableEq

/-- The tokenizer phase of create_pix2tex_datasets
(07_create_pix2tex_dataset.py lines 16-55).  When tokenizer.json already
exists the builder is skipped entirely; otherwise the stripped nonempty
equation lines are collected and, when none remain, the phase errors out
building nothing; else a byte-level BPE tokenizer with unknown token
UNK, the three special tokens PAD, BOS, EOS and target vocabulary size
8000 is trained and saved to the fixed tokenizer path.  The BPE training
itself is an external library call; the outcome records the exact
configuration the script passes to it. -/
def buildTokenizer (tokenizerFileExists : Bool) (eqLines : List (List Char)) :
    VocabOutcome :=
  if tokenizerFileExists then .existing
  else
    let equations := (eqLines.filter (fun l => !(pyStrip l).isEmpty)).map pyStrip
    if equations.isEmpty then .noEquations
    else .built 8000 ["[PAD]".toList, "[BOS]".toList, "[EOS]".toList]
      "[UNK]".toList true true

/-- Claim C8 counterexample: with no existing artifact and an empty
corpus the builder does not construct and persist a vocabulary; it takes
the no-equations error return, which differs from every built outcome. -/
theorem c8_counterexample :
    buildTokenizer false [] = VocabOutcome.noEquations ∧
    VocabOutcome.noEquations
      ≠ VocabOutcome.built 8000
          ["[PAD]".toList, "[BOS]".toList, "[EOS]".toList]
          "[UNK]".toList true true := by
  constructor
  · rfl
  · decide

/-- Claim C8 (amended): vocabulary building is a no-op whenever the
tokenizer file already exists; when it does not exist and the corpus
holds at least one nonempty equation line, the builder constructs the
byte-level sub-word vocabulary with target size 8000, the three reserved
control tokens and the unknown-token fallback, and persists it to the
fixed path; with an empty corpus it errors out and builds nothing. -/
theorem c8_amended (eqs : List (List Char)) (l : List Char)
    (hl : l ∈ eqs) (hne : (pyStrip l).isEmpty = false) :
    (∀ eqs2 : List (List Char),
        buildTokenizer true eqs2 = VocabOutcome.existing) ∧
    buildTokenizer false eqs
      = VocabOutcome.built 8000
          ["[PAD]".toList, "[BOS]".toList, "[EOS]".toList]
          "[UNK]".toList true true := by
  constructor
  · intro eqs2
    rfl
  · have hnonempty : (eqs.filter (fun x => !(pyStrip x).isEmpty)).map pyStrip ≠ [] := by
      intro h
      have h1 : l ∈ eqs.filter (fun x => !(pyStrip x).isEmpty) :=
        List.mem_filter.mpr ⟨hl, by rw [hne]; rfl⟩
      have h2 : pyStrip l ∈ (eqs.filter (fun x => !(pyStrip x).isEmpty)).map pyStrip :=
        List.mem_map_of_mem pyStrip h1
      rw [h] at h2
      exact absurd h2 (List.not_mem_nil _)
    show (if ((eqs.filter (fun x => !(pyStrip x).isEmpty)).map pyStrip).isEmpty
        then VocabOutcome.noEquations
        else VocabOutcome.built 8000
          ["[PAD]".toList, "[BOS]".toList, "[EOS]".toList]
          "[UNK]".toList true true)
      = VocabOutcome.built 8000
          ["[PAD]".toList, "[BOS]".toList, "[EOS]".toList]
          "[UNK]".toList true true
    rw [if_neg (by simpa using hnonempty)]

/-- Witness for claim C8: one nonempty concrete equation makes the
builder train and save the configured tokenizer. -/
theorem c8_amended_witness :
    ("x^2".toList ∈ ["x^2".toList]) ∧
    buildTokenizer false ["x^2".toList]
      = VocabOutcome.built 8000
          ["[PAD]".toList, "[BOS]".toList, "[EOS]".toList]
          "[UNK]".toList true true := by
  have h := c8_amended ["x^2".toList] "x^2".toList (by decide) (by decide)
  exact ⟨by decide, h.2⟩
